import Mathlib

set_option autoImplicit false

namespace ContainerDataCollector

/-! Shallow embedding of the `container_data_collector` execution engine:
the slot aggregator (`VectorPartial`), the traversal context
(`context.py`), and the node tree (`nodes.py`).

Python values are modelled by the inductive type `Val`; Python exceptions
by `Except` with an explicit error kind `Err`.  Mutation of the shared
traversal context is modelled by explicit state passing; an exception
carries the context state at the moment of the raise, so that "state
unchanged on failure" is statable. -/

/-- Dynamic (Python-like) values flowing through the engine: integers,
strings, lists, dictionaries (association lists) and `None`. -/
inductive Val where
  | vint : Int → Val
  | vstr : String → Val
  | vlist : List Val → Val
  | vdict : List (Val × Val) → Val
  | vnone : Val

mutual

/-- Structural equality on values, standing in for Python `==` where the
engine compares keys. -/
def Val.beq : Val → Val → Bool
  | .vint a, .vint b => a == b
  | .vstr a, .vstr b => a == b
  | .vlist a, .vlist b => Val.beqList a b
  | .vdict a, .vdict b => Val.beqPairs a b
  | .vnone, .vnone => true
  | _, _ => false

/-- Structural equality on lists of values. -/
def Val.beqList : List Val → List Val → Bool
  | [], [] => true
  | a :: la, b :: lb => Val.beq a b && Val.beqList la lb
  | _, _ => false

/-- Structural equality on lists of key-value pairs. -/
def Val.beqPairs : List (Val × Val) → List (Val × Val) → Bool
  | [], [] => true
  | (k1, v1) :: la, (k2, v2) :: lb => (Val.beq k1 k2 && Val.beq v1 v2) && Val.beqPairs la lb
  | _, _ => false

end

/-- Kinds of Python exceptions raised by the engine. -/
inductive Err where
  | indexError
  | valueError
  | keyError
  | typeError
  | runtimeError
deriving DecidableEq, Repr

/-- Modelled from the spec: the module `vector_partial.py` (the Slot
Aggregator) is not under `src/`; only its tests and its callers are.
Following spec §3/§4.1: a wrapped callable, a declared slot count
`n_args`, a vector of `n_args` slot values and a parallel "filled"
bitset.  Slot positions are 1-indexed.  The reflection-based signature
check at construction is not modelled (callables are total Lean
functions on argument vectors). -/
structure VectorPartial (ρ : Type) where
  func : List Val → ρ
  n_args : Nat
  values : List Val
  filled : List Bool

/-- Modelled from the spec: construction with a positive slot count `n`
yields `n` unfilled slots (the `n_args ≥ 1` arity check is performed by
the caller-facing constructor; the engine only ever constructs with
`n_elements + 1` / `n_groups + 1`, which are positive). -/
def VectorPartial.make {ρ : Type} (f : List Val → ρ) (n : Nat) : VectorPartial ρ :=
  ⟨f, n, List.replicate n Val.vnone, List.replicate n false⟩

/-- Modelled from the spec: `insert(value, pos)` requires `pos ∈ [1, n_args]`,
else fails with an out-of-range error; it sets slot `pos` to `value` and
marks it filled, overwriting unconditionally. -/
def VectorPartial.insert {ρ : Type} (s : VectorPartial ρ) (v : Val) (pos : Int) :
    Except Err (VectorPartial ρ) :=
  if pos < 1 ∨ (s.n_args : Int) < pos then .error .indexError
  else .ok { s with values := s.values.set (pos - 1).toNat v,
                    filled := s.filled.set (pos - 1).toNat true }

/-- Modelled from the spec: `remove(pos)` requires `pos ∈ [1, n_args]`,
else fails with an out-of-range error; it marks slot `pos` as unfilled
(idempotent if already unfilled). -/
def VectorPartial.remove {ρ : Type} (s : VectorPartial ρ) (pos : Int) :
    Except Err (VectorPartial ρ) :=
  if pos < 1 ∨ (s.n_args : Int) < pos then .error .indexError
  else .ok { s with filled := s.filled.set (pos - 1).toNat false }

/-- Modelled from the spec: `missing_args` is the count of unset bits of
the filled bitset. -/
def VectorPartial.missing_args {ρ : Type} (s : VectorPartial ρ) : Nat :=
  s.filled.count false

/-- Modelled from the spec: `can_return` holds exactly when `missing_args`
is zero. -/
def VectorPartial.can_return {ρ : Type} (s : VectorPartial ρ) : Bool :=
  s.missing_args == 0

/-- Modelled from the spec: `invoke()` fails with a not-ready error when
`can_return` is false; otherwise it calls the wrapped callable
positionally with the slot values in position order and returns its
result.  It does not clear any slot as a side effect, so the aggregator
state coming out of the call is the receiver itself. -/
def VectorPartial.invoke {ρ : Type} (s : VectorPartial ρ) :
    Except Err (ρ × VectorPartial ρ) :=
  if s.can_return then .ok (s.func s.values, s) else .error .runtimeError

/-- Traversal context from `context.py`: joins an element inserter (whose
Python return annotation is `None`, hence result type `Unit`) and a group
factory (returning a bottom container, hence result type `Val`). -/
structure Context where
  element_inserter : VectorPartial Unit
  group_factory : VectorPartial Val

/-- Construction from `Context.__init__`: builds the two slot aggregators
with arities `n_elements + 1` and `n_groups + 1`; if `n_groups == 0`,
binds the top container into the element inserter's slot 1, otherwise
into the group factory's slot 1.  Exceptions propagate. -/
def Context.make (inserter : List Val → Unit) (n_elements : Nat)
    (group_factory : List Val → Val) (n_groups : Nat) (top_container : Val) :
    Except Err Context :=
  let ei := VectorPartial.make inserter (n_elements + 1)
  let gf := VectorPartial.make group_factory (n_groups + 1)
  if n_groups = 0 then
    match ei.insert top_container 1 with
    | .ok ei2 => .ok ⟨ei2, gf⟩
    | .error e => .error e
  else
    match gf.insert top_container 1 with
    | .ok gf2 => .ok ⟨ei, gf2⟩
    | .error e => .error e

/-- Translation of `Context._check_pos`: raises `ValueError` exactly when
`pos` is `0`. -/
def Context.check_pos (pos : Int) : Except Err Unit :=
  if pos = 0 then .error .valueError else .ok ()

/-- Translation of `Context.apply_element`: check the position, insert the
element at slot `pos + 1` of the element inserter; if the inserter can
now return, invoke it and remove slot `pos + 1`.  The second component of
a successful result records the argument vectors with which the wrapped
inserter was invoked during the call (the inserter itself returns no
observable value); an error carries the context state at the raise. -/
def Context.apply_element (ctx : Context) (e : Val) (pos : Int) :
    Except (Err × Context) (Context × List (List Val)) :=
  match Context.check_pos pos with
  | .error er => .error (er, ctx)
  | .ok _ =>
    match ctx.element_inserter.insert e (pos + 1) with
    | .error er => .error (er, ctx)
    | .ok ei =>
      if ei.can_return then
        match ei.invoke with
        | .error er => .error (er, { ctx with element_inserter := ei })
        | .ok (_, ei1) =>
          match ei1.remove (pos + 1) with
          | .error er => .error (er, { ctx with element_inserter := ei1 })
          | .ok ei2 => .ok ({ ctx with element_inserter := ei2 }, [ei.values])
      else .ok ({ ctx with element_inserter := ei }, [])

/-- Translation of `Context.create_group`: check the position, insert the
key at slot `pos + 1` of the group factory; if the factory can now
return, invoke it to obtain a bottom container, remove slot `pos + 1`,
and insert that container into the element inserter's slot 1.  The second
component of a successful result records the argument vectors with which
the wrapped factory was invoked during the call; an error carries the
context state at the raise. -/
def Context.create_group (ctx : Context) (key : Val) (pos : Int) :
    Except (Err × Context) (Context × List (List Val)) :=
  match Context.check_pos pos with
  | .error er => .error (er, ctx)
  | .ok _ =>
    match ctx.group_factory.insert key (pos + 1) with
    | .error er => .error (er, ctx)
    | .ok gf =>
      if gf.can_return then
        match gf.invoke with
        | .error er => .error (er, { ctx with group_factory := gf })
        | .ok (bottom_container, gf1) =>
          match gf1.remove (pos + 1) with
          | .error er => .error (er, { ctx with group_factory := gf1 })
          | .ok gf2 =>
            match ctx.element_inserter.insert bottom_container 1 with
            | .error er => .error (er, { ctx with group_factory := gf2 })
            | .ok ei2 => .ok (⟨ei2, gf2⟩, [gf.values])
      else .ok ({ ctx with group_factory := gf }, [])

/-- Completion signal of node processing, from `nodes.State`. -/
inductive State where
  | SUCCESS
  | REJECT
deriving DecidableEq, Repr

/-- Closed sum of the node kinds of `nodes.py`.  Children attached via
`attach` appear as constructor fields: `PseudoRoot`, `At` and `FromList`
carry a child list, `Element` and `Group` carry at most one filter
child.  Membership containers (`any_of`, Python `Container.__contains__`)
are membership predicates; `validator` / `invalidator` and the `Group`
key factory are functions on values. -/
inductive Node where
  | pseudoRoot (next_nodes : List Node)
  | element (pos : Int) (next_node : Option Node)
  | group (level : Int) (factory : Option (Val → Val)) (next_node : Option Node)
  | incl (any_of : Option (Val → Bool)) (validator : Option (Val → Bool))
  | excl (any_of : Option (Val → Bool)) (invalidator : Option (Val → Bool))
  | atKey (key : Val) (next_nodes : List Node)
  | fromList (key : Option Val) (next_nodes : List Node)

/-- Python subscription `obj[key]` as used by `At.process` and
`FromList.process`: dictionary lookup by structural key equality
(`KeyError` when absent), list indexing by integer with negative-index
support (`IndexError` out of bounds), `TypeError` otherwise. -/
def getItem (obj : Val) (key : Val) : Except Err Val :=
  match obj with
  | .vdict ps =>
    match ps.find? (fun p => Val.beq p.1 key) with
    | some p => .ok p.2
    | none => .error .keyError
  | .vlist l =>
    match key with
    | .vint i =>
      let j : Int := if i < 0 then i + l.length else i
      if 0 ≤ j ∧ j < l.length then .ok (l.getD j.toNat .vnone) else .error .indexError
    | _ => .error .typeError
  | _ => .error .typeError

/-- Python iteration `for value in obj` as used by `FromList.process`:
lists yield their elements, dictionaries their keys, strings their
characters; other values raise `TypeError`. -/
def iterElems (obj : Val) : Except Err (List Val) :=
  match obj with
  | .vlist l => .ok l
  | .vdict ps => .ok (ps.map Prod.fst)
  | .vstr s => .ok (s.toList.map (fun c => .vstr (String.mk [c])))
  | _ => .error .typeError

/-- Key projection step of `FromList.process`: with a key present the
incoming object is subscripted, otherwise it is the sequence itself. -/
def lookupOpt (key : Option Val) (obj : Val) : Except Err Val :=
  match key with
  | some k => getItem obj k
  | none => .ok obj

mutual

/-- Translation of the `process` methods of `nodes.py`, dispatched on the
node kind.  A result `.ok (s, ctx)` is the returned completion signal
together with the context state; `.error (er, ctx)` is a propagating
exception together with the context state at the raise. -/
def Node.process : Node → Val → Context → Except (Err × Context) (State × Context)
  | .pseudoRoot ns, obj, ctx => processChildren ns obj ctx
  | .element pos next, obj, ctx =>
    match processFilter next obj ctx with
    | .error e => .error e
    | .ok (.REJECT, c1) => .ok (.REJECT, c1)
    | .ok (.SUCCESS, c1) =>
      match c1.apply_element obj pos with
      | .error e => .error e
      | .ok (c2, _) => .ok (.SUCCESS, c2)
  | .group level fac next, obj, ctx =>
    let obj2 := match fac with | some f => f obj | none => obj
    match processFilter next obj2 ctx with
    | .error e => .error e
    | .ok (.REJECT, c1) => .ok (.REJECT, c1)
    | .ok (.SUCCESS, c1) =>
      match c1.create_group obj2 level with
      | .error e => .error e
      | .ok (c2, _) => .ok (.SUCCESS, c2)
  | .incl any_of validator, obj, ctx =>
    if (match any_of with | some mem => !(mem obj) | none => false) then .ok (.REJECT, ctx)
    else if (match validator with | some v => !(v obj) | none => false) then .ok (.REJECT, ctx)
    else .ok (.SUCCESS, ctx)
  | .excl any_of invalidator, obj, ctx =>
    if (match any_of with | some mem => mem obj | none => false) then .ok (.REJECT, ctx)
    else if (match invalidator with | some v => v obj | none => false) then .ok (.REJECT, ctx)
    else .ok (.SUCCESS, ctx)
  | .atKey key ns, obj, ctx =>
    match getItem obj key with
    | .error er => .error (er, ctx)
    | .ok value => processChildren ns value ctx
  | .fromList key ns, obj, ctx =>
    match lookupOpt key obj with
    | .error er => .error (er, ctx)
    | .ok seqObj =>
      match iterElems seqObj with
      | .error er => .error (er, ctx)
      | .ok es =>
        match processIter es ns ctx with
        | .error e => .error e
        | .ok c => .ok (.SUCCESS, c)

/-- Loop of `PseudoRoot.process` / `At.process` over the child list:
children run in declaration order; a `REJECT` stops the iteration and is
returned at once; otherwise `SUCCESS` once the list is exhausted. -/
def processChildren : List Node → Val → Context → Except (Err × Context) (State × Context)
  | [], _, ctx => .ok (.SUCCESS, ctx)
  | n :: ns, obj, ctx =>
    match n.process obj ctx with
    | .error e => .error e
    | .ok (.SUCCESS, c1) => processChildren ns obj c1
    | .ok (.REJECT, c1) => .ok (.REJECT, c1)

/-- Optional filter child of `Element.process` / `Group.process`: absent
filters succeed without touching the context. -/
def processFilter : Option Node → Val → Context → Except (Err × Context) (State × Context)
  | none, _, ctx => .ok (.SUCCESS, ctx)
  | some f, obj, ctx => f.process obj ctx

/-- Outer loop of `FromList.process` over the sequence elements. -/
def processIter : List Val → List Node → Context → Except (Err × Context) Context
  | [], _, ctx => .ok ctx
  | v :: vs, ns, ctx =>
    match processIterChildren ns v ctx with
    | .error e => .error e
    | .ok c1 => processIter vs ns c1

/-- Inner loop of `FromList.process` over the children for one sequence
element: each child's completion signal is discarded, only exceptions
propagate. -/
def processIterChildren : List Node → Val → Context → Except (Err × Context) Context
  | [], _, ctx => .ok ctx
  | n :: ns, v, ctx =>
    match n.process v ctx with
    | .error e => .error e
    | .ok (_, c1) => processIterChildren ns v c1

end

/-- Chained success of a child list: each child, run in declaration order
on the same object with the context threaded through, returns `SUCCESS`.
`AllSuccess ns obj ctx ctx'` relates the context before and after. -/
inductive AllSuccess : List Node → Val → Context → Context → Prop where
  | nil (obj : Val) (ctx : Context) : AllSuccess [] obj ctx ctx
  | cons (n : Node) (ns : List Node) (obj : Val) (ctx c1 c2 : Context) :
      n.process obj ctx = .ok (.SUCCESS, c1) → AllSuccess ns obj c1 c2 →
      AllSuccess (n :: ns) obj ctx c2

/-- Concrete traversal context (element-inserter arity 2, group-factory
arity 1) used by the concrete instantiations below. -/
def ctxA : Context :=
  ⟨VectorPartial.make (fun _ => ()) 2, VectorPartial.make (fun _ => Val.vnone) 1⟩

/-- Concrete context whose element inserter (arity 2) has slot 1 already
bound, so that one `apply_element` completes it. -/
def ctxB : Context :=
  ⟨⟨fun _ => (), 2, [Val.vint 0, Val.vnone], [true, false]⟩,
   VectorPartial.make (fun _ => Val.vnone) 1⟩

/-- Element-inserter state of `ctxB` right after inserting `5` at slot 2. -/
def eiB : VectorPartial Unit :=
  ⟨fun _ => (), 2, [Val.vint 0, Val.vint 5], [true, true]⟩

/-- Concrete context whose group factory (arity 2) has slot 1 already
bound, so that one `create_group` completes it. -/
def ctxC : Context :=
  ⟨VectorPartial.make (fun _ => ()) 2,
   ⟨fun l => Val.vlist l, 2, [Val.vint 0, Val.vnone], [true, false]⟩⟩

/-- Group-factory state of `ctxC` right after inserting the key at slot 2. -/
def gfC : VectorPartial Val :=
  ⟨fun l => Val.vlist l, 2, [Val.vint 0, Val.vstr "g"], [true, true]⟩

/-! Basic lemmas about the slot aggregator. -/

theorem VectorPartial.insert_in_range {ρ : Type} (s : VectorPartial ρ) (v : Val) (pos : Int)
    (h1 : 1 ≤ pos) (h2 : pos ≤ (s.n_args : Int)) :
    s.insert v pos = .ok { s with values := s.values.set (pos - 1).toNat v,
                                  filled := s.filled.set (pos - 1).toNat true } := by
  have hc : ¬(pos < 1 ∨ (s.n_args : Int) < pos) := by omega
  unfold VectorPartial.insert
  rw [if_neg hc]

theorem VectorPartial.remove_in_range {ρ : Type} (s : VectorPartial ρ) (pos : Int)
    (h1 : 1 ≤ pos) (h2 : pos ≤ (s.n_args : Int)) :
    s.remove pos = .ok { s with filled := s.filled.set (pos - 1).toNat false } := by
  have hc : ¬(pos < 1 ∨ (s.n_args : Int) < pos) := by omega
  unfold VectorPartial.remove
  rw [if_neg hc]

/-- C8: for every slot aggregator and every position `pos ∈ [1, n_args]`,
`insert` is an overwriting operation: inserting twice at the same
position with different values is not an error and leaves only the
second value live at that slot, every other slot's value is untouched,
and the filled bitset — hence `can_return` and `missing_args` — is
unaffected by the repeated `insert` at the already-filled position. -/
theorem VectorPartial.insert_overwrites_idempotently {ρ : Type}
    (s : VectorPartial ρ) (v1 v2 : Val) (pos : Int)
    (hlen : s.values.length = s.n_args)
    (h1 : 1 ≤ pos) (h2 : pos ≤ (s.n_args : Int)) :
    ∃ s1 s2 : VectorPartial ρ,
      s.insert v1 pos = .ok s1 ∧
      s1.insert v2 pos = .ok s2 ∧
      s2.values[(pos - 1).toNat]? = some v2 ∧
      (∀ q : Nat, q ≠ (pos - 1).toNat → s2.values[q]? = s1.values[q]?) ∧
      s2.filled = s1.filled ∧
      s2.can_return = s1.can_return ∧
      s2.missing_args = s1.missing_args := by
  have hidx : (pos - 1).toNat < s.values.length := by omega
  refine ⟨{ s with values := s.values.set (pos - 1).toNat v1,
                   filled := s.filled.set (pos - 1).toNat true },
          { s with values := s.values.set (pos - 1).toNat v2,
                   filled := s.filled.set (pos - 1).toNat true },
          s.insert_in_range v1 pos h1 h2, ?_, ?_, ?_, rfl, rfl, rfl⟩
  · rw [VectorPartial.insert_in_range
      { s with values := s.values.set (pos - 1).toNat v1,
               filled := s.filled.set (pos - 1).toNat true } v2 pos h1 h2]
    simp [List.set_set]
  · rw [List.getElem?_set_self]
    simpa using hidx
  · intro q hq
    rw [List.getElem?_set_ne (by omega), List.getElem?_set_ne (by omega)]

/-- Witness for C8 at a concrete aggregator of arity 2 and position 1. -/
theorem VectorPartial.insert_overwrites_idempotently_witness :
    (List.replicate 2 Val.vnone).length = (2 : Nat) ∧ (1 : Int) ≤ 1 ∧ (1 : Int) ≤ (2 : Nat) ∧
    ∃ s1 s2 : VectorPartial Unit,
      (VectorPartial.make (fun _ => ()) 2).insert (Val.vint 7) 1 = .ok s1 ∧
      s1.insert (Val.vint 9) 1 = .ok s2 ∧
      s2.values[((1 : Int) - 1).toNat]? = some (Val.vint 9) ∧
      (∀ q : Nat, q ≠ ((1 : Int) - 1).toNat → s2.values[q]? = s1.values[q]?) ∧
      s2.filled = s1.filled ∧
      s2.can_return = s1.can_return ∧
      s2.missing_args = s1.missing_args :=
  ⟨rfl, by decide, by decide,
   VectorPartial.insert_overwrites_idempotently
     (VectorPartial.make (fun _ => ()) 2) (Val.vint 7) (Val.vint 9) 1 rfl
     (by decide) (by decide)⟩

/-- C9: `invoke` fails with the not-ready `RuntimeError` exactly when
`can_return` is false; when it succeeds it calls the wrapped callable
positionally with the slot values in position order, returns the
callable's result, and leaves every slot value and fill mark as it was. -/
theorem VectorPartial.invoke_iff_ready {ρ : Type} (s : VectorPartial ρ) :
    (s.can_return = false → s.invoke = .error .runtimeError) ∧
    (s.can_return = true → s.invoke = .ok (s.func s.values, s)) ∧
    (∀ (r : ρ) (s' : VectorPartial ρ), s.invoke = .ok (r, s') →
      s.can_return = true ∧ r = s.func s.values ∧
      s'.values = s.values ∧ s'.filled = s.filled) := by
  unfold VectorPartial.invoke
  refine ⟨fun h => by rw [h]; rfl, fun h => by rw [h]; rfl, fun r s' h => ?_⟩
  by_cases hc : s.can_return
  · rw [if_pos hc] at h
    cases h
    exact ⟨hc, rfl, rfl, rfl⟩
  · rw [if_neg hc] at h
    cases h

/-- Witness for C9 at a concrete ready aggregator of arity 1. -/
theorem VectorPartial.invoke_iff_ready_witness :
    (VectorPartial.mk (fun l => Val.vlist l) 1 [Val.vint 3] [true]).invoke
      = .ok (Val.vlist [Val.vint 3],
             VectorPartial.mk (fun l => Val.vlist l) 1 [Val.vint 3] [true]) :=
  (VectorPartial.invoke_iff_ready
    (VectorPartial.mk (fun l => Val.vlist l) 1 [Val.vint 3] [true])).2.1 rfl

/-- C5 counterexample: at `pos = -1` both `apply_element` and
`create_group` fail with the slot aggregator's out-of-range `IndexError`,
not with the "manual container injection forbidden" `ValueError` the
claim names for every `pos < 1` (the `_check_pos` gate only fires for
`pos == 0`). -/
theorem Context.neg_pos_raises_index_error :
    ctxA.apply_element Val.vnone (-1) = .error (.indexError, ctxA) ∧
    ctxA.create_group Val.vnone (-1) = .error (.indexError, ctxA) ∧
    Err.indexError ≠ Err.valueError :=
  ⟨rfl, rfl, by decide⟩

/-- C5 amended: `pos = 0` makes `apply_element` and `create_group` fail
with the forbidden-injection `ValueError`; a negative `pos` passes the
`_check_pos` gate and fails inside the slot aggregator with an
out-of-range `IndexError`; in both cases the error carries the context
with its two slot aggregators unchanged. -/
theorem Context.pos_below_one_fails_state_unchanged
    (ctx : Context) (v key : Val) (pos : Int) :
    (pos = 0 →
      ctx.apply_element v pos = .error (.valueError, ctx) ∧
      ctx.create_group key pos = .error (.valueError, ctx)) ∧
    (pos < 0 →
      ctx.apply_element v pos = .error (.indexError, ctx) ∧
      ctx.create_group key pos = .error (.indexError, ctx)) := by
  constructor
  · intro h
    subst h
    exact ⟨rfl, rfl⟩
  · intro h
    have hne : ¬(pos = 0) := by omega
    have hlow : pos + 1 < 1 := by omega
    constructor
    · unfold Context.apply_element Context.check_pos VectorPartial.insert
      rw [if_neg hne, if_pos (Or.inl hlow)]
    · unfold Context.create_group Context.check_pos VectorPartial.insert
      rw [if_neg hne, if_pos (Or.inl hlow)]

/-- Witness for the amended C5 at `pos = 0` on a concrete context. -/
theorem Context.pos_below_one_fails_state_unchanged_witness :
    ctxA.apply_element Val.vnone 0 = .error (.valueError, ctxA) ∧
    ctxA.create_group Val.vnone 0 = .error (.valueError, ctxA) :=
  (Context.pos_below_one_fails_state_unchanged ctxA Val.vnone Val.vnone 0).1 rfl

/-- C3: whenever inserting the element at slot `pos + 1` makes the
element inserter complete, `apply_element` invokes the inserter exactly
once, positionally on the full slot vector and with no observable return
value (the recorded trace is `[ei.values]` and the success payload
carries no result), then removes only slot `pos + 1`: the slot values are
all untouched, every other slot's fill state is unchanged, the triggering
slot is unfilled, and the group factory is not touched at all. -/
theorem Context.apply_element_trigger_clears_only_pos
    (ctx : Context) (v : Val) (pos : Int) (ei : VectorPartial Unit)
    (hpos : pos ≠ 0)
    (hins : ctx.element_inserter.insert v (pos + 1) = .ok ei)
    (hcan : ei.can_return = true) :
    ctx.apply_element v pos
      = .ok ({ ctx with element_inserter :=
                 { ei with filled := ei.filled.set pos.toNat false } },
             [ei.values]) ∧
    (VectorPartial.mk ei.func ei.n_args ei.values (ei.filled.set pos.toNat false)).values
      = ei.values ∧
    (∀ q : Nat, q ≠ pos.toNat → (ei.filled.set pos.toNat false)[q]? = ei.filled[q]?) ∧
    (pos.toNat < ei.filled.length → (ei.filled.set pos.toNat false)[pos.toNat]? = some false) := by
  have hrange : ¬(pos + 1 < 1 ∨ (ctx.element_inserter.n_args : Int) < pos + 1) := by
    intro hc
    unfold VectorPartial.insert at hins
    rw [if_pos hc] at hins
    cases hins
  have h1 : (1 : Int) ≤ pos + 1 := by omega
  have h2 : pos + 1 ≤ (ctx.element_inserter.n_args : Int) := by omega
  have heq := ctx.element_inserter.insert_in_range v (pos + 1) h1 h2
  rw [heq] at hins
  injection hins with hins
  have hn : ei.n_args = ctx.element_inserter.n_args := by rw [← hins]
  have hinv : ei.invoke = .ok (ei.func ei.values, ei) := by
    unfold VectorPartial.invoke
    rw [hcan]
    rfl
  have hrem : ei.remove (pos + 1)
      = .ok { ei with filled := ei.filled.set pos.toNat false } := by
    have h := ei.remove_in_range (pos + 1) h1 (by omega)
    have hp : (pos + 1 - 1 : Int) = pos := by omega
    rw [hp] at h
    exact h
  rw [hins] at heq
  refine ⟨?_, rfl, ?_, ?_⟩
  · unfold Context.apply_element Context.check_pos
    rw [if_neg hpos]
    simp only [heq, hcan, hinv, hrem, eq_self_iff_true, ite_true]
  · intro q hq
    rw [List.getElem?_set_ne (Ne.symm hq)]
  · intro hlt
    rw [List.getElem?_set_self hlt]

/-- Witness for C3 on `ctxB`: inserting `5` at position 1 completes the
inserter, which is invoked once on the full slot vector, and only slot 2
is cleared afterwards. -/
theorem Context.apply_element_trigger_clears_only_pos_witness :
    ctxB.apply_element (Val.vint 5) 1
      = .ok ({ ctxB with element_inserter :=
                 { eiB with filled := eiB.filled.set (1 : Int).toNat false } },
             [eiB.values]) :=
  (Context.apply_element_trigger_clears_only_pos ctxB (Val.vint 5) 1 eiB
    (by decide) rfl rfl).1

/-- C4: whenever inserting the key at slot `pos + 1` makes the group
factory complete, `create_group` invokes the original factory callable on
the full slot vector, removes only slot `pos + 1` of the factory, and
binds the obtained nested container into the element inserter's slot 1,
overwriting whatever was bound there while leaving every other inserter
slot unchanged; when the factory is not complete after the insert, only
the factory's slot `pos + 1` has been set and nothing else changes. -/
theorem Context.create_group_trigger_rebinds
    (ctx : Context) (key : Val) (pos : Int) (gf : VectorPartial Val)
    (hpos : pos ≠ 0)
    (hins : ctx.group_factory.insert key (pos + 1) = .ok gf)
    (hei : 1 ≤ ctx.element_inserter.n_args) :
    (gf.can_return = true →
      ctx.create_group key pos
        = .ok (⟨{ ctx.element_inserter with
                    values := ctx.element_inserter.values.set 0 (gf.func gf.values),
                    filled := ctx.element_inserter.filled.set 0 true },
                { gf with filled := gf.filled.set pos.toNat false }⟩,
               [gf.values]) ∧
      (∀ q : Nat, q ≠ pos.toNat → (gf.filled.set pos.toNat false)[q]? = gf.filled[q]?) ∧
      (∀ q : Nat, q ≠ 0 →
        (ctx.element_inserter.values.set 0 (gf.func gf.values))[q]?
          = ctx.element_inserter.values[q]?) ∧
      gf.func = ctx.group_factory.func) ∧
    (gf.can_return = false →
      ctx.create_group key pos = .ok ({ ctx with group_factory := gf }, [])) := by
  have hrange : ¬(pos + 1 < 1 ∨ (ctx.group_factory.n_args : Int) < pos + 1) := by
    intro hc
    unfold VectorPartial.insert at hins
    rw [if_pos hc] at hins
    cases hins
  have h1 : (1 : Int) ≤ pos + 1 := by omega
  have h2 : pos + 1 ≤ (ctx.group_factory.n_args : Int) := by omega
  have heq := ctx.group_factory.insert_in_range key (pos + 1) h1 h2
  rw [heq] at hins
  injection hins with hins
  have hfunc : gf.func = ctx.group_factory.func := by rw [← hins]
  have hn : gf.n_args = ctx.group_factory.n_args := by rw [← hins]
  rw [hins] at heq
  constructor
  · intro hcan
    have hinv : gf.invoke = .ok (gf.func gf.values, gf) := by
      unfold VectorPartial.invoke
      rw [hcan]
      rfl
    have hrem : gf.remove (pos + 1)
        = .ok { gf with filled := gf.filled.set pos.toNat false } := by
      have h := gf.remove_in_range (pos + 1) h1 (by omega)
      have hp : (pos + 1 - 1 : Int) = pos := by omega
      rw [hp] at h
      exact h
    have hei1 : ctx.element_inserter.insert (gf.func gf.values) 1
        = .ok { ctx.element_inserter with
                  values := ctx.element_inserter.values.set 0 (gf.func gf.values),
                  filled := ctx.element_inserter.filled.set 0 true } :=
      ctx.element_inserter.insert_in_range (gf.func gf.values) 1 (by omega) (by omega)
    refine ⟨?_, ?_, ?_, hfunc⟩
    · unfold Context.create_group Context.check_pos
      rw [if_neg hpos]
      simp only [heq, hcan, hinv, hrem, hei1, eq_self_iff_true, ite_true]
    · intro q hq
      rw [List.getElem?_set_ne (Ne.symm hq)]
    · intro q hq
      rw [List.getElem?_set_ne (Ne.symm hq)]
  · intro hcan
    unfold Context.create_group Context.check_pos
    rw [if_neg hpos]
    simp [heq, hcan]

/-- Witness for C4 on `ctxC`: creating group key `"g"` at level 1
completes the factory; the produced container is rebound into the
element inserter's slot 1. -/
theorem Context.create_group_trigger_rebinds_witness :
    ctxC.create_group (Val.vstr "g") 1
      = .ok (⟨{ ctxC.element_inserter with
                  values := ctxC.element_inserter.values.set 0 (gfC.func gfC.values),
                  filled := ctxC.element_inserter.filled.set 0 true },
              { gfC with filled := gfC.filled.set (1 : Int).toNat false }⟩,
             [gfC.values]) :=
  ((Context.create_group_trigger_rebinds ctxC (Val.vstr "g") 1 gfC
      (by decide) rfl (by decide)).1 rfl).1

/-- C6: `Context` construction always succeeds, builds the element
inserter with arity `n_elements + 1` and the group factory with arity
`n_groups + 1` around the supplied callables, and binds the top container
into the element inserter's slot 1 when `n_groups = 0` (group factory's
slot 1 stays empty) and into the group factory's slot 1 otherwise
(element inserter's slot 1 stays empty). -/
theorem Context.make_builds_and_binds
    (inserter : List Val → Unit) (n_elements : Nat)
    (group_factory : List Val → Val) (n_groups : Nat) (top : Val) :
    ∃ ctx : Context,
      Context.make inserter n_elements group_factory n_groups top = .ok ctx ∧
      ctx.element_inserter.n_args = n_elements + 1 ∧
      ctx.group_factory.n_args = n_groups + 1 ∧
      ctx.element_inserter.func = inserter ∧
      ctx.group_factory.func = group_factory ∧
      (n_groups = 0 →
        ctx.element_inserter.values[0]? = some top ∧
        ctx.element_inserter.filled[0]? = some true ∧
        ctx.group_factory.filled[0]? = some false) ∧
      (n_groups ≠ 0 →
        ctx.group_factory.values[0]? = some top ∧
        ctx.group_factory.filled[0]? = some true ∧
        ctx.element_inserter.filled[0]? = some false) := by
  by_cases hg : n_groups = 0
  · subst hg
    have hins := (VectorPartial.make inserter (n_elements + 1)).insert_in_range top 1
      (by omega) (by show (1 : Int) ≤ ((n_elements + 1 : Nat) : Int); omega)
    refine ⟨⟨{ VectorPartial.make inserter (n_elements + 1) with
                 values := (List.replicate (n_elements + 1) Val.vnone).set 0 top,
                 filled := (List.replicate (n_elements + 1) false).set 0 true },
              VectorPartial.make group_factory (0 + 1)⟩,
            ?_, rfl, rfl, rfl, rfl, fun _ => ⟨?_, ?_, rfl⟩, fun h0 => absurd rfl h0⟩
    · unfold Context.make
      simp only [hins]
      rfl
    · rw [List.getElem?_set_self (by simp)]
    · rw [List.getElem?_set_self (by simp)]
  · have hins := (VectorPartial.make group_factory (n_groups + 1)).insert_in_range top 1
      (by omega) (by show (1 : Int) ≤ ((n_groups + 1 : Nat) : Int); omega)
    refine ⟨⟨VectorPartial.make inserter (n_elements + 1),
             { VectorPartial.make group_factory (n_groups + 1) with
                 values := (List.replicate (n_groups + 1) Val.vnone).set 0 top,
                 filled := (List.replicate (n_groups + 1) false).set 0 true }⟩,
            ?_, rfl, rfl, rfl, rfl, fun h0 => absurd h0 hg, fun _ => ⟨?_, ?_, ?_⟩⟩
    · unfold Context.make
      rw [if_neg hg, hins]
      rfl
    · rw [List.getElem?_set_self (by simp)]
    · rw [List.getElem?_set_self (by simp)]
    · show (List.replicate (n_elements + 1) false)[0]? = some false
      simp

/-- Witness for C6 with one element position and zero groups: the top
container lands in the element inserter's slot 1. -/
theorem Context.make_builds_and_binds_witness :
    ∃ ctx : Context,
      Context.make (fun _ => ()) 1 (fun _ => Val.vnone) 0 (Val.vint 9) = .ok ctx ∧
      ctx.element_inserter.values[0]? = some (Val.vint 9) ∧
      ctx.element_inserter.filled[0]? = some true ∧
      ctx.group_factory.filled[0]? = some false :=
  match Context.make_builds_and_binds (fun _ => ()) 1 (fun _ => Val.vnone) 0 (Val.vint 9) with
  | ⟨ctx, hmk, _, _, _, _, h6, _⟩ => ⟨ctx, hmk, (h6 rfl).1, (h6 rfl).2.1, (h6 rfl).2.2⟩

/-! Equation lemmas for the node-processing functions. -/

theorem process_pseudoRoot (ns : List Node) (obj : Val) (ctx : Context) :
    Node.process (.pseudoRoot ns) obj ctx = processChildren ns obj ctx := by
  conv_lhs => unfold Node.process

theorem process_atKey (k : Val) (ns : List Node) (d obj : Val) (ctx : Context)
    (h : getItem d k = .ok obj) :
    Node.process (.atKey k ns) d ctx = processChildren ns obj ctx := by
  conv_lhs => unfold Node.process
  simp only [h]

theorem process_fromList_none (ns : List Node) (es : List Val) (ctx : Context) :
    Node.process (.fromList none ns) (.vlist es) ctx
      = (match processIter es ns ctx with
         | .error e => .error e
         | .ok c => .ok (.SUCCESS, c)) := by
  conv_lhs => unfold Node.process
  rfl

theorem processChildren_nil (obj : Val) (ctx : Context) :
    processChildren [] obj ctx = .ok (.SUCCESS, ctx) := by
  conv_lhs => unfold processChildren

theorem processChildren_cons_success (n : Node) (ns : List Node) (obj : Val)
    (ctx c1 : Context) (h : n.process obj ctx = .ok (.SUCCESS, c1)) :
    processChildren (n :: ns) obj ctx = processChildren ns obj c1 := by
  conv_lhs => unfold processChildren
  simp only [h]

theorem processChildren_cons_reject (n : Node) (ns : List Node) (obj : Val)
    (ctx c1 : Context) (h : n.process obj ctx = .ok (.REJECT, c1)) :
    processChildren (n :: ns) obj ctx = .ok (.REJECT, c1) := by
  conv_lhs => unfold processChildren
  simp only [h]

theorem allSuccess_processChildren (ns : List Node) (obj : Val) (ctx ctx' : Context)
    (h : AllSuccess ns obj ctx ctx') :
    processChildren ns obj ctx = .ok (.SUCCESS, ctx') := by
  induction h with
  | nil obj ctx => exact processChildren_nil obj ctx
  | cons n ns obj ctx c1 c2 hstep _ ih =>
    rw [processChildren_cons_success n ns obj ctx c1 hstep]
    exact ih

theorem processChildren_append_allSuccess (l1 l2 : List Node) (obj : Val)
    (ctx ctx1 : Context) (h : AllSuccess l1 obj ctx ctx1) :
    processChildren (l1 ++ l2) obj ctx = processChildren l2 obj ctx1 := by
  induction h with
  | nil obj ctx => rw [List.nil_append]
  | cons n ns obj ctx c1 c2 hstep _ ih =>
    rw [List.cons_append, processChildren_cons_success n (ns ++ l2) obj ctx c1 hstep]
    exact ih

theorem processIter_nil (ns : List Node) (ctx : Context) :
    processIter [] ns ctx = .ok ctx := by
  conv_lhs => unfold processIter

theorem processIter_cons (v : Val) (vs : List Val) (ns : List Node) (ctx c1 : Context)
    (h : processIterChildren ns v ctx = .ok c1) :
    processIter (v :: vs) ns ctx = processIter vs ns c1 := by
  conv_lhs => unfold processIter
  simp only [h]

theorem processIterChildren_nil (v : Val) (ctx : Context) :
    processIterChildren [] v ctx = .ok ctx := by
  conv_lhs => unfold processIterChildren

theorem processIterChildren_cons (n : Node) (ns : List Node) (v : Val)
    (ctx c1 : Context) (st : State) (h : n.process v ctx = .ok (st, c1)) :
    processIterChildren (n :: ns) v ctx = processIterChildren ns v c1 := by
  conv_lhs => unfold processIterChildren
  simp only [h]

theorem processFilter_some (f : Node) (obj : Val) (ctx : Context) :
    processFilter (some f) obj ctx = f.process obj ctx := by
  conv_lhs => unfold processFilter

/-- C2: under `Root` (`PseudoRoot`) and `KeyAccess` (`At`), children run
in declaration order; once some child returns `REJECT`, the remaining
siblings are not invoked (the overall result is `REJECT` with that
child's context, whatever the remaining siblings are); if every child
returns `SUCCESS`, or the child list is empty, the node returns
`SUCCESS`. -/
theorem children_short_circuit :
    (∀ (cs1 : List Node) (c : Node) (cs2 : List Node) (obj : Val) (ctx ctx1 ctx2 : Context),
      AllSuccess cs1 obj ctx ctx1 →
      c.process obj ctx1 = .ok (.REJECT, ctx2) →
      Node.process (.pseudoRoot (cs1 ++ c :: cs2)) obj ctx = .ok (.REJECT, ctx2)) ∧
    (∀ (cs1 : List Node) (c : Node) (cs2 : List Node) (d k obj : Val)
       (ctx ctx1 ctx2 : Context),
      getItem d k = .ok obj →
      AllSuccess cs1 obj ctx ctx1 →
      c.process obj ctx1 = .ok (.REJECT, ctx2) →
      Node.process (.atKey k (cs1 ++ c :: cs2)) d ctx = .ok (.REJECT, ctx2)) ∧
    (∀ (ns : List Node) (obj : Val) (ctx ctx' : Context),
      AllSuccess ns obj ctx ctx' →
      Node.process (.pseudoRoot ns) obj ctx = .ok (.SUCCESS, ctx') ∧
      (∀ d k, getItem d k = .ok obj →
        Node.process (.atKey k ns) d ctx = .ok (.SUCCESS, ctx'))) := by
  refine ⟨?_, ?_, ?_⟩
  · intro cs1 c cs2 obj ctx ctx1 ctx2 hall hrej
    rw [process_pseudoRoot, processChildren_append_allSuccess cs1 (c :: cs2) obj ctx ctx1 hall,
        processChildren_cons_reject c cs2 obj ctx1 ctx2 hrej]
  · intro cs1 c cs2 d k obj ctx ctx1 ctx2 hget hall hrej
    rw [process_atKey k (cs1 ++ c :: cs2) d obj ctx hget,
        processChildren_append_allSuccess cs1 (c :: cs2) obj ctx ctx1 hall,
        processChildren_cons_reject c cs2 obj ctx1 ctx2 hrej]
  · intro ns obj ctx ctx' hall
    refine ⟨?_, fun d k hget => ?_⟩
    · rw [process_pseudoRoot, allSuccess_processChildren ns obj ctx ctx' hall]
    · rw [process_atKey k ns d obj ctx hget, allSuccess_processChildren ns obj ctx ctx' hall]

/-- Witness for C2: a rejecting `Exclude` child before one further
sibling under a concrete `PseudoRoot`; the result is `REJECT` with the
context untouched, whatever the remaining sibling would have done. -/
theorem children_short_circuit_witness :
    Node.process (.pseudoRoot ([] ++ (.excl (some (fun _ => true)) none)
        :: [.element 0 none])) Val.vnone ctxA
      = .ok (.REJECT, ctxA) :=
  children_short_circuit.1 [] (.excl (some (fun _ => true)) none) [.element 0 none]
    Val.vnone ctxA ctxA ctxA (AllSuccess.nil Val.vnone ctxA)
    (by unfold Node.process; rfl)

/-- C1: `Iterate` (`FromList`) applies every attached child to every
sequence element and discards each child's completion signal: whatever
signal a child returns, its siblings still run for that element from the
context the child produced (second conjunct); a child's `REJECT` on one
element affects neither that element's remaining siblings nor the
following elements (third conjunct, for a two-child node); and whenever
`process` returns at all, it returns `SUCCESS` to its parent (first
conjunct). -/
theorem iterate_absorbs_rejections :
    (∀ (k : Option Val) (cs : List Node) (obj : Val) (ctx : Context) (s : State)
       (ctx' : Context),
      Node.process (.fromList k cs) obj ctx = .ok (s, ctx') → s = .SUCCESS) ∧
    (∀ (n : Node) (rest : List Node) (x : Val) (ctx : Context) (st : State) (c1 : Context),
      n.process x ctx = .ok (st, c1) →
      processIterChildren (n :: rest) x ctx = processIterChildren rest x c1) ∧
    (∀ (A B : Node) (x : Val) (ys : List Val) (ctx c1 : Context) (sB : State) (c2 : Context),
      A.process x ctx = .ok (.REJECT, c1) →
      B.process x c1 = .ok (sB, c2) →
      Node.process (.fromList none [A, B]) (.vlist (x :: ys)) ctx
        = (match processIter ys [A, B] c2 with
           | .error e => .error e
           | .ok c => .ok (.SUCCESS, c))) := by
  refine ⟨?_, ?_, ?_⟩
  · intro k cs obj ctx s ctx' h
    unfold Node.process at h
    split at h
    · cases h
    · split at h
      · cases h
      · split at h
        · cases h
        · injection h with h2
          injection h2 with h3 h4
          exact h3.symm
  · intro n rest x ctx st c1 h
    exact processIterChildren_cons n rest x ctx c1 st h
  · intro A B x ys ctx c1 sB c2 hA hB
    have hch : processIterChildren [A, B] x ctx = .ok c2 := by
      rw [processIterChildren_cons A [B] x ctx c1 .REJECT hA,
          processIterChildren_cons B [] x c1 c2 sB hB,
          processIterChildren_nil x c2]
    rw [process_fromList_none [A, B] (x :: ys) ctx,
        processIter_cons x ys [A, B] ctx c2 hch]

/-- Witness for C1: a one-element list under an Iterate node whose first
child rejects everything and whose second child accepts; the node still
returns `SUCCESS`. -/
theorem iterate_absorbs_rejections_witness :
    Node.process (.fromList none [.excl (some (fun _ => true)) none, .incl none none])
        (.vlist [Val.vnone]) ctxA
      = (match processIter [] [Node.excl (some (fun _ => true)) none, .incl none none] ctxA with
         | .error e => .error e
         | .ok c => .ok (.SUCCESS, c)) :=
  iterate_absorbs_rejections.2.2 (.excl (some (fun _ => true)) none) (.incl none none)
    Val.vnone [] ctxA ctxA .SUCCESS ctxA
    (by unfold Node.process; rfl) (by unfold Node.process; rfl)

/-- C7: an `Element` or `Group` node whose attached filter child rejects
returns `REJECT` without calling the Context — the resulting context is
exactly the one the filter produced, and `Include`/`Exclude` filters
never change the context at all; for a `Group` node the projection
function is applied to the incoming value before the filter runs, and
the projected value is what both the filter and `create_group`
receive. -/
theorem filter_reject_guards_context :
    (∀ (pos : Int) (f : Node) (obj : Val) (ctx c' : Context),
      f.process obj ctx = .ok (.REJECT, c') →
      Node.process (.element pos (some f)) obj ctx = .ok (.REJECT, c')) ∧
    (∀ (level : Int) (fac : Val → Val) (f : Node) (obj : Val) (ctx c' : Context),
      f.process (fac obj) ctx = .ok (.REJECT, c') →
      Node.process (.group level (some fac) (some f)) obj ctx = .ok (.REJECT, c')) ∧
    (∀ (level : Int) (fac : Val → Val) (f : Node) (obj : Val) (ctx c' : Context),
      f.process (fac obj) ctx = .ok (.SUCCESS, c') →
      Node.process (.group level (some fac) (some f)) obj ctx
        = (match c'.create_group (fac obj) level with
           | .error e => .error e
           | .ok (c2, _) => .ok (.SUCCESS, c2))) ∧
    (∀ (a v : Option (Val → Bool)) (obj : Val) (ctx : Context), ∃ st : State,
      Node.process (.incl a v) obj ctx = .ok (st, ctx)) ∧
    (∀ (a v : Option (Val → Bool)) (obj : Val) (ctx : Context), ∃ st : State,
      Node.process (.excl a v) obj ctx = .ok (st, ctx)) := by
  refine ⟨?_, ?_, ?_, ?_, ?_⟩
  · intro pos f obj ctx c' h
    conv_lhs => unfold Node.process
    rw [processFilter_some f obj ctx]
    simp only [h]
  · intro level fac f obj ctx c' h
    conv_lhs => unfold Node.process
    simp only [processFilter_some, h]
  · intro level fac f obj ctx c' h
    conv_lhs => unfold Node.process
    simp only [processFilter_some, h]
  · intro a v obj ctx
    unfold Node.process
    by_cases h1 : (match a with | some mem => !(mem obj) | none => false) = true
    · rw [if_pos h1]
      exact ⟨.REJECT, rfl⟩
    · rw [if_neg h1]
      by_cases h2 : (match v with | some vv => !(vv obj) | none => false) = true
      · rw [if_pos h2]
        exact ⟨.REJECT, rfl⟩
      · rw [if_neg h2]
        exact ⟨.SUCCESS, rfl⟩
  · intro a v obj ctx
    unfold Node.process
    by_cases h1 : (match a with | some mem => mem obj | none => false) = true
    · rw [if_pos h1]
      exact ⟨.REJECT, rfl⟩
    · rw [if_neg h1]
      by_cases h2 : (match v with | some vv => vv obj | none => false) = true
      · rw [if_pos h2]
        exact ⟨.REJECT, rfl⟩
      · rw [if_neg h2]
        exact ⟨.SUCCESS, rfl⟩

/-- Witness for C7: an `Element` node whose reject-everything filter
child fires; the node rejects and the concrete context is untouched. -/
theorem filter_reject_guards_context_witness :
    Node.process (.element 1 (some (.excl (some (fun _ => true)) none))) Val.vnone ctxA
      = .ok (.REJECT, ctxA) :=
  filter_reject_guards_context.1 1 (.excl (some (fun _ => true)) none) Val.vnone ctxA ctxA
    (by unfold Node.process; rfl)

/-- C10: with both the membership container and the predicate set, the
membership test runs first and short-circuits: when it alone already
rejects (value absent from `any_of` for `Include`, present for
`Exclude`), the node returns `REJECT` and the result does not depend on
the predicate — the predicate is never consulted for that value. -/
theorem membership_short_circuits :
    (∀ (mem v1 v2 : Val → Bool) (obj : Val) (ctx : Context),
      mem obj = false →
      Node.process (.incl (some mem) (some v1)) obj ctx = .ok (.REJECT, ctx) ∧
      Node.process (.incl (some mem) (some v1)) obj ctx
        = Node.process (.incl (some mem) (some v2)) obj ctx) ∧
    (∀ (mem i1 i2 : Val → Bool) (obj : Val) (ctx : Context),
      mem obj = true →
      Node.process (.excl (some mem) (some i1)) obj ctx = .ok (.REJECT, ctx) ∧
      Node.process (.excl (some mem) (some i1)) obj ctx
        = Node.process (.excl (some mem) (some i2)) obj ctx) := by
  constructor
  · intro mem v1 v2 obj ctx h
    have he : ∀ v : Val → Bool,
        Node.process (.incl (some mem) (some v)) obj ctx = .ok (.REJECT, ctx) := by
      intro v
      unfold Node.process
      simp [h]
    exact ⟨he v1, (he v1).trans (he v2).symm⟩
  · intro mem i1 i2 obj ctx h
    have he : ∀ v : Val → Bool,
        Node.process (.excl (some mem) (some v)) obj ctx = .ok (.REJECT, ctx) := by
      intro v
      unfold Node.process
      simp [h]
    exact ⟨he i1, (he i1).trans (he i2).symm⟩

/-- Witness for C10: a value outside a concrete `Include` membership set
is rejected identically under two different validators. -/
theorem membership_short_circuits_witness :
    Node.process (.incl (some (fun _ => false)) (some (fun _ => true))) Val.vnone ctxA
      = .ok (.REJECT, ctxA) ∧
    Node.process (.incl (some (fun _ => false)) (some (fun _ => true))) Val.vnone ctxA
      = Node.process (.incl (some (fun _ => false)) (some (fun _ => false))) Val.vnone ctxA :=
  membership_short_circuits.1 (fun _ => false) (fun _ => true) (fun _ => false)
    Val.vnone ctxA rfl

end ContainerDataCollector
